import Mathlib

/-!
Verification of the LIF network simulator, the analytical LIF rate function
and the NEF ridge-regression decoder of this repository.

The simulator `run_LIF_network` and the rate function `LIF_io` are shallowly
embedded from the notebook source.  Exact rational arithmetic stands in for
the float arithmetic of the simulator (every claimed property of the
simulator is an algebraic identity or inequality, valid over any ordered
field); the rate function needs the real logarithm and the special values
of numpy floats, so it is embedded over the reals with an explicit value
type carrying infinities and the not-a-number value.
-/

namespace NMCA3

/-! ## The LIF network simulator, embedded from run_LIF_network -/

/-- Elementwise sum of two numpy vectors. -/
def npAdd (u v : List ℚ) : List ℚ := List.zipWith (fun a c => a + c) u v

/-- A numpy vector times a scalar on the right, elementwise: F * x[i-1]. -/
def npMulS (u : List ℚ) (c : ℚ) : List ℚ := u.map (fun a => a * c)

/-- A scalar times a numpy vector, elementwise: dt * (...). -/
def npSmul (c : ℚ) (u : List ℚ) : List ℚ := u.map (fun a => c * a)

/-- Elementwise negation of a numpy vector: -V[:, i-1]. -/
def npNeg (u : List ℚ) : List ℚ := u.map (fun a => -a)

/-- Elementwise comparison u >= v of two numpy vectors, the boolean mask
V[:, i] >= T of the source. -/
def npGe (u v : List ℚ) : List Bool := List.zipWith (fun a c => decide (c ≤ a)) u v

/-- Masked assignment u[mask] = c: positions where the mask holds receive c,
the remaining positions keep their value.  This is the
V[spiking_neurons, i] = 0 / s[spiking_neurons, i] = 1 idiom of the source,
with spiking_neurons = np.arange(N)[mask]. -/
def maskSet (m : List Bool) (c : ℚ) (u : List ℚ) : List ℚ :=
  List.zipWith (fun q a => if q then c else a) m u

/-- One simulation column (time slice) of the three state arrays:
V[:, i], s[:, i] and r[:, i]. -/
structure LIFCol where
  V : List ℚ
  s : List ℚ
  r : List ℚ
  deriving DecidableEq

/-- The voltage update of the source, before spike detection:
V[:, i] = V[:, i-1] + dt*(-V[:, i-1] + F*x[i-1] + b). -/
def lifVupdate (F b Vprev : List ℚ) (dt xprev : ℚ) : List ℚ :=
  npAdd Vprev (npSmul dt (npAdd (npAdd (npNeg Vprev) (npMulS F xprev)) b))

/-- The filtered-spike-train update of the source:
r[:, i] = r[:, i-1] + dt*(-r[:, i-1]) + s[:, i-1]. -/
def lifRupdate (rprev sprev : List ℚ) (dt : ℚ) : List ℚ :=
  npAdd (npAdd rprev (npSmul dt (npNeg rprev))) sprev

/-- One iteration of the Euler loop of run_LIF_network: voltage update,
filtered-rate update, then spike detection and reset.  The spike column
starts as the zero column of np.zeros((N, nT)) and the spiking positions
are set to 1. -/
def lifStep (F b T : List ℚ) (dt xprev : ℚ) (st : LIFCol) : LIFCol :=
  let Vi := lifVupdate F b st.V dt xprev
  let ri := lifRupdate st.r st.s dt
  let mask := npGe Vi T
  { V := maskSet mask 0 Vi
    s := maskSet mask 1 (List.replicate F.length 0)
    r := ri }

/-- The all-zero initial column, from np.zeros((N, nT)). -/
def lifInit (N : ℕ) : LIFCol :=
  { V := List.replicate N 0, s := List.replicate N 0, r := List.replicate N 0 }

/-- Column i of the three state arrays of run_LIF_network.  Iteration i of
the source loop reads x[i-1], here x.getD (i-1) 0. -/
def lifCols (x F b T : List ℚ) (dt : ℚ) : ℕ → LIFCol
  | 0 => lifInit F.length
  | i + 1 => lifStep F b T dt (x.getD i 0) (lifCols x F b T dt i)

/-- The full simulator: three N x nT matrices (rows indexed by neuron,
columns by time), with nT = len(x) and N = len(F) as in the source. -/
def run_LIF_network (x F b T : List ℚ) (dt : ℚ) :
    List (List ℚ) × List (List ℚ) × List (List ℚ) :=
  ( (List.range F.length).map
      (fun j => (List.range x.length).map (fun i => (lifCols x F b T dt i).V.getD j 0))
  , (List.range F.length).map
      (fun j => (List.range x.length).map (fun i => (lifCols x F b T dt i).s.getD j 0))
  , (List.range F.length).map
      (fun j => (List.range x.length).map (fun i => (lifCols x F b T dt i).r.getD j 0)) )

/-! ### Entry and length lemmas for the vector operations -/

theorem getD_zipWith {α β γ : Type} (f : α → β → γ) (u : List α) (v : List β)
    (j : ℕ) (hu : j < u.length) (hv : j < v.length) (da : α) (db : β) (dc : γ) :
    (List.zipWith f u v).getD j dc = f (u.getD j da) (v.getD j db) := by
  induction u generalizing v j with
  | nil => simp at hu
  | cons a u ih =>
    cases v with
    | nil => simp at hv
    | cons c v =>
      cases j with
      | zero => simp
      | succ k =>
        simp only [List.zipWith_cons_cons, List.getD_cons_succ]
        exact ih v k (by simpa using hu) (by simpa using hv)

theorem getD_map {α β : Type} (f : α → β) (u : List α) (j : ℕ) (hj : j < u.length)
    (da : α) (db : β) : (u.map f).getD j db = f (u.getD j da) := by
  induction u generalizing j with
  | nil => simp at hj
  | cons a u ih =>
    cases j with
    | zero => simp
    | succ k =>
      simp only [List.map_cons, List.getD_cons_succ]
      exact ih k (by simpa using hj)

theorem getD_replicate {α : Type} (c : α) (n j : ℕ) (hj : j < n) (d : α) :
    (List.replicate n c).getD j d = c := by
  induction n generalizing j with
  | zero => simp at hj
  | succ k ih =>
    cases j with
    | zero => simp [List.replicate]
    | succ l => simpa [List.replicate] using ih l (by omega)

/-- Lengths of the three state columns: all equal to N = len(F), provided the
population is well formed (len(b) = len(T) = len(F), a caller precondition of
the source). -/
theorem lifCols_length (x F b T : List ℚ) (dt : ℚ)
    (hb : b.length = F.length) (hT : T.length = F.length) (i : ℕ) :
    ((lifCols x F b T dt i).V.length = F.length ∧
     (lifCols x F b T dt i).s.length = F.length) ∧
     (lifCols x F b T dt i).r.length = F.length := by
  induction i with
  | zero => simp [lifCols, lifInit]
  | succ k ih =>
    obtain ⟨⟨hV, hs⟩, hr⟩ := ih
    refine ⟨⟨?_, ?_⟩, ?_⟩ <;>
      simp [lifCols, lifStep, lifVupdate, lifRupdate, npAdd, npSmul, npNeg, npMulS,
        npGe, maskSet, hV, hs, hr, hb, hT]

theorem npAdd_getD (u v : List ℚ) (j : ℕ) (hu : j < u.length) (hv : j < v.length) :
    (npAdd u v).getD j 0 = u.getD j 0 + v.getD j 0 :=
  getD_zipWith _ u v j hu hv 0 0 0

theorem npMulS_getD (u : List ℚ) (c : ℚ) (j : ℕ) (hu : j < u.length) :
    (npMulS u c).getD j 0 = u.getD j 0 * c :=
  getD_map _ u j hu 0 0

theorem npSmul_getD (c : ℚ) (u : List ℚ) (j : ℕ) (hu : j < u.length) :
    (npSmul c u).getD j 0 = c * u.getD j 0 :=
  getD_map _ u j hu 0 0

theorem npNeg_getD (u : List ℚ) (j : ℕ) (hu : j < u.length) :
    (npNeg u).getD j 0 = -(u.getD j 0) :=
  getD_map _ u j hu 0 0

theorem npGe_getD (u v : List ℚ) (j : ℕ) (hu : j < u.length) (hv : j < v.length) :
    (npGe u v).getD j false = decide (v.getD j 0 ≤ u.getD j 0) :=
  getD_zipWith _ u v j hu hv 0 0 false

theorem maskSet_getD (m : List Bool) (c : ℚ) (u : List ℚ) (j : ℕ)
    (hm : j < m.length) (hu : j < u.length) :
    (maskSet m c u).getD j 0 = if m.getD j false then c else u.getD j 0 :=
  getD_zipWith _ m u j hm hu false 0 0

@[simp] theorem npAdd_length (u v : List ℚ) : (npAdd u v).length = min u.length v.length := by
  simp [npAdd]

@[simp] theorem npMulS_length (u : List ℚ) (c : ℚ) : (npMulS u c).length = u.length := by
  simp [npMulS]

@[simp] theorem npSmul_length (c : ℚ) (u : List ℚ) : (npSmul c u).length = u.length := by
  simp [npSmul]

@[simp] theorem npNeg_length (u : List ℚ) : (npNeg u).length = u.length := by
  simp [npNeg]

@[simp] theorem npGe_length (u v : List ℚ) : (npGe u v).length = min u.length v.length := by
  simp [npGe]

@[simp] theorem maskSet_length (m : List Bool) (c : ℚ) (u : List ℚ) :
    (maskSet m c u).length = min m.length u.length := by
  simp [maskSet]

@[simp] theorem lifVupdate_length (F b Vp : List ℚ) (dt xp : ℚ) :
    (lifVupdate F b Vp dt xp).length = min Vp.length (min (min Vp.length F.length) b.length) := by
  simp [lifVupdate]

@[simp] theorem lifRupdate_length (rp sp : List ℚ) (dt : ℚ) :
    (lifRupdate rp sp dt).length = min rp.length sp.length := by
  simp [lifRupdate]

/-- Entry of the pre-reset voltage update: the Euler recurrence, elementwise. -/
theorem lifVupdate_getD (F b Vp : List ℚ) (dt xp : ℚ) (j : ℕ)
    (hj : j < F.length) (hV : Vp.length = F.length) (hb : b.length = F.length) :
    (lifVupdate F b Vp dt xp).getD j 0 =
      Vp.getD j 0 + dt * (-(Vp.getD j 0) + F.getD j 0 * xp + b.getD j 0) := by
  have l1 : (npMulS F xp).length = F.length := by simp
  have l2 : (npNeg Vp).length = F.length := by simp [hV]
  have l3 : (npAdd (npNeg Vp) (npMulS F xp)).length = F.length := by simp [hV]
  have l4 : (npAdd (npAdd (npNeg Vp) (npMulS F xp)) b).length = F.length := by
    simp [hV, hb]
  have l5 : (npSmul dt (npAdd (npAdd (npNeg Vp) (npMulS F xp)) b)).length = F.length := by
    simp [hV, hb]
  unfold lifVupdate
  rw [npAdd_getD _ _ j (by omega) (by omega)]
  rw [npSmul_getD _ _ j (by omega)]
  rw [npAdd_getD _ _ j (by omega) (by omega)]
  rw [npAdd_getD _ _ j (by omega) (by omega)]
  rw [npNeg_getD _ j (by omega), npMulS_getD _ _ j hj]

/-- Entry of the filtered-spike-train update. -/
theorem lifRupdate_getD (rp sp : List ℚ) (dt : ℚ) (j : ℕ)
    (hr : j < rp.length) (hs : j < sp.length) :
    (lifRupdate rp sp dt).getD j 0 =
      rp.getD j 0 + dt * (-(rp.getD j 0)) + sp.getD j 0 := by
  unfold lifRupdate
  rw [npAdd_getD _ _ j (by simp; omega) hs]
  rw [npAdd_getD _ _ j hr (by simp [hr])]
  rw [npSmul_getD _ _ j (by simp [hr]), npNeg_getD _ j hr]

/-- Entrywise description of one full simulation step: the stored voltage is
the pre-reset value with spiking neurons forced to 0, the spike column is the
indicator of the spike condition, and the filtered rate follows its
recurrence. -/
theorem lifCols_succ_getD (x F b T : List ℚ) (dt : ℚ)
    (hb : b.length = F.length) (hT : T.length = F.length)
    (i j : ℕ) (hj : j < F.length) :
    ((lifCols x F b T dt (i + 1)).V.getD j 0 =
      (if T.getD j 0 ≤ (lifVupdate F b (lifCols x F b T dt i).V dt (x.getD i 0)).getD j 0
        then 0
        else (lifVupdate F b (lifCols x F b T dt i).V dt (x.getD i 0)).getD j 0) ∧
     (lifCols x F b T dt (i + 1)).s.getD j 0 =
      (if T.getD j 0 ≤ (lifVupdate F b (lifCols x F b T dt i).V dt (x.getD i 0)).getD j 0
        then 1 else 0)) ∧
    (lifCols x F b T dt (i + 1)).r.getD j 0 =
      (lifCols x F b T dt i).r.getD j 0 + dt * (-((lifCols x F b T dt i).r.getD j 0)) +
        (lifCols x F b T dt i).s.getD j 0 := by
  obtain ⟨⟨hV, hs⟩, hr⟩ := lifCols_length x F b T dt hb hT i
  have hVi : (lifVupdate F b (lifCols x F b T dt i).V dt (x.getD i 0)).length = F.length := by
    simp [hV, hb]
  have hmask : (npGe (lifVupdate F b (lifCols x F b T dt i).V dt (x.getD i 0)) T).length
      = F.length := by rw [npGe_length, hVi, hT, min_self]
  refine ⟨⟨?_, ?_⟩, ?_⟩
  · show (lifStep F b T dt (x.getD i 0) (lifCols x F b T dt i)).V.getD j 0 = _
    unfold lifStep
    rw [maskSet_getD _ _ _ j (by rw [hmask]; exact hj) (by rw [hVi]; exact hj)]
    rw [npGe_getD _ _ j (by rw [hVi]; exact hj) (by rw [hT]; exact hj)]
    by_cases h : T.getD j 0 ≤ (lifVupdate F b (lifCols x F b T dt i).V dt (x.getD i 0)).getD j 0 <;>
      simp [h]
  · show (lifStep F b T dt (x.getD i 0) (lifCols x F b T dt i)).s.getD j 0 = _
    unfold lifStep
    rw [maskSet_getD _ _ _ j (by rw [hmask]; exact hj) (by simp [hj])]
    rw [npGe_getD _ _ j (by rw [hVi]; exact hj) (by rw [hT]; exact hj)]
    by_cases h : T.getD j 0 ≤ (lifVupdate F b (lifCols x F b T dt i).V dt (x.getD i 0)).getD j 0 <;>
      simp [h, getD_replicate (0 : ℚ) F.length j hj]
  · show (lifStep F b T dt (x.getD i 0) (lifCols x F b T dt i)).r.getD j 0 = _
    unfold lifStep
    exact lifRupdate_getD _ _ dt j (by rw [hr]; exact hj) (by rw [hs]; exact hj)

/-! ### Claim C2: spike detection and reset -/

/-- Claim C2: in run_LIF_network, at every step i+1 and neuron j of a well
formed population, a spike is recorded (s = 1) iff the pre-reset voltage is
at least the threshold (equality spikes), the stored voltage of a spiking
neuron is forced to 0, and a non-spiking neuron records s = 0 and keeps its
pre-reset voltage, so the reset hits exactly the spiking neurons. -/
theorem claim2_spike_iff_threshold_and_reset (x F b T : List ℚ) (dt : ℚ)
    (hb : b.length = F.length) (hT : T.length = F.length)
    (i j : ℕ) (hj : j < F.length) :
    ((lifCols x F b T dt (i + 1)).s.getD j 0 = 1 ↔
      T.getD j 0 ≤ (lifVupdate F b (lifCols x F b T dt i).V dt (x.getD i 0)).getD j 0) ∧
    ((lifCols x F b T dt (i + 1)).s.getD j 0 = 1 →
      (lifCols x F b T dt (i + 1)).V.getD j 0 = 0) ∧
    ((lifCols x F b T dt (i + 1)).s.getD j 0 ≠ 1 →
      (lifCols x F b T dt (i + 1)).s.getD j 0 = 0 ∧
      (lifCols x F b T dt (i + 1)).V.getD j 0 =
        (lifVupdate F b (lifCols x F b T dt i).V dt (x.getD i 0)).getD j 0) := by
  obtain ⟨⟨hVeq, hseq⟩, _⟩ := lifCols_succ_getD x F b T dt hb hT i j hj
  by_cases h : T.getD j 0 ≤ (lifVupdate F b (lifCols x F b T dt i).V dt (x.getD i 0)).getD j 0
  · rw [if_pos h] at hVeq hseq
    exact ⟨⟨fun _ => h, fun _ => hseq⟩, fun _ => hVeq, fun hne => absurd hseq hne⟩
  · rw [if_neg h] at hVeq hseq
    refine ⟨⟨fun h1 => absurd (hseq.symm.trans h1) zero_ne_one, fun hc => absurd hc h⟩,
      fun h1 => absurd (hseq.symm.trans h1) zero_ne_one, fun _ => ⟨hseq, hVeq⟩⟩

/-- Witness for claim C2 at a concrete input: one neuron, F = [1], b = [0],
T = [1], x = [2, 0], dt = 1; at step 1 the pre-reset voltage is 2 >= 1, so
the neuron spikes and its stored voltage is reset to 0. -/
theorem claim2_witness :
    ([(0 : ℚ)].length = [(1 : ℚ)].length ∧ [(1 : ℚ)].length = [(1 : ℚ)].length ∧
      0 < [(1 : ℚ)].length) ∧
    (((lifCols [2, 0] [1] [0] [1] 1 (0 + 1)).s.getD 0 0 = 1 ↔
      (1 : ℚ) ≤ (lifVupdate [1] [0] (lifCols [2, 0] [1] [0] [1] 1 0).V 1 2).getD 0 0) ∧
    ((lifCols [2, 0] [1] [0] [1] 1 (0 + 1)).s.getD 0 0 = 1 →
      (lifCols [2, 0] [1] [0] [1] 1 (0 + 1)).V.getD 0 0 = 0) ∧
    ((lifCols [2, 0] [1] [0] [1] 1 (0 + 1)).s.getD 0 0 ≠ 1 →
      (lifCols [2, 0] [1] [0] [1] 1 (0 + 1)).s.getD 0 0 = 0 ∧
      (lifCols [2, 0] [1] [0] [1] 1 (0 + 1)).V.getD 0 0 =
        (lifVupdate [1] [0] (lifCols [2, 0] [1] [0] [1] 1 0).V 1 2).getD 0 0)) :=
  ⟨⟨by decide, by decide, by decide⟩,
    claim2_spike_iff_threshold_and_reset [2, 0] [1] [0] [1] 1 (by decide) (by decide)
      0 0 (by decide)⟩

/-! ### Claim C3: filtered-rate recurrence -/

/-- Claim C3: in run_LIF_network, at every step i+1 and neuron j of a well
formed population, the filtered rate satisfies
r[i+1] = r[i] + dt * (-r[i]) + s[i]: the spike contribution enters as a unit
impulse, not scaled by dt. -/
theorem claim3_filtered_rate_recurrence (x F b T : List ℚ) (dt : ℚ)
    (hb : b.length = F.length) (hT : T.length = F.length)
    (i j : ℕ) (hj : j < F.length) :
    (lifCols x F b T dt (i + 1)).r.getD j 0 =
      (lifCols x F b T dt i).r.getD j 0 + dt * (-((lifCols x F b T dt i).r.getD j 0)) +
        (lifCols x F b T dt i).s.getD j 0 :=
  (lifCols_succ_getD x F b T dt hb hT i j hj).2

/-- Witness for claim C3 at a concrete input: one neuron, F = [1], b = [0],
T = [1], x = [2, 0], dt = 1/2; at step 2 the filtered rate picks up the
step-1 spike as a unit impulse. -/
theorem claim3_witness :
    ([(0 : ℚ)].length = [(1 : ℚ)].length ∧ [(1 : ℚ)].length = [(1 : ℚ)].length ∧
      0 < [(1 : ℚ)].length) ∧
    (lifCols [2, 0, 0] [1] [0] [1] (1/2) (1 + 1)).r.getD 0 0 =
      (lifCols [2, 0, 0] [1] [0] [1] (1/2) 1).r.getD 0 0 +
        (1/2) * (-((lifCols [2, 0, 0] [1] [0] [1] (1/2) 1).r.getD 0 0)) +
        (lifCols [2, 0, 0] [1] [0] [1] (1/2) 1).s.getD 0 0 :=
  ⟨⟨by decide, by decide, by decide⟩,
    claim3_filtered_rate_recurrence [2, 0, 0] [1] [0] [1] (1/2) (by decide) (by decide)
      1 0 (by decide)⟩

/-! ### Claim C4: voltage recurrence -/

/-- Counterexample to claim C4 as stated: with one neuron, F = [1], b = [0],
T = [1], x = [2, 0] and dt = 1, the stored voltage at step 1 does not equal
the Euler expression V[0] + dt * (-V[0] + F*x[0] + b): the neuron spikes at
step 1, so the stored value is the reset value 0 while the Euler expression
evaluates to 2. -/
theorem claim4_counterexample :
    ¬ ((lifCols [2, 0] [1] [0] [1] 1 1).V.getD 0 0 =
        (lifCols [2, 0] [1] [0] [1] 1 0).V.getD 0 0 +
          1 * (-((lifCols [2, 0] [1] [0] [1] 1 0).V.getD 0 0) +
            ([(1 : ℚ)].getD 0 0) * ([(2 : ℚ), 0].getD 0 0) + [(0 : ℚ)].getD 0 0)) := by
  norm_num [lifCols, lifInit, lifStep, lifVupdate, lifRupdate, npAdd, npSmul, npNeg,
    npMulS, npGe, maskSet]

/-- Claim C4, amended: the PRE-reset voltage at step i+1 satisfies the Euler
recurrence V[i+1] = V[i] + dt * (-V[i] + F*x[i] + b) over the previous stored
(post-reset) column, and the stored voltage at step i+1 equals this value for
non-spiking neurons and 0 for spiking neurons. -/
theorem claim4_voltage_recurrence_pre_reset (x F b T : List ℚ) (dt : ℚ)
    (hb : b.length = F.length) (hT : T.length = F.length)
    (i j : ℕ) (hj : j < F.length) :
    (lifVupdate F b (lifCols x F b T dt i).V dt (x.getD i 0)).getD j 0 =
      (lifCols x F b T dt i).V.getD j 0 +
        dt * (-((lifCols x F b T dt i).V.getD j 0) + F.getD j 0 * x.getD i 0 + b.getD j 0) ∧
    (lifCols x F b T dt (i + 1)).V.getD j 0 =
      (if T.getD j 0 ≤ (lifVupdate F b (lifCols x F b T dt i).V dt (x.getD i 0)).getD j 0
        then 0
        else (lifVupdate F b (lifCols x F b T dt i).V dt (x.getD i 0)).getD j 0) := by
  obtain ⟨⟨hV, _⟩, _⟩ := lifCols_length x F b T dt hb hT i
  exact ⟨lifVupdate_getD F b _ dt _ j hj hV hb,
    ((lifCols_succ_getD x F b T dt hb hT i j hj).1).1⟩

/-- Witness for the amended claim C4 at the input of the counterexample. -/
theorem claim4_witness :
    ([(0 : ℚ)].length = [(1 : ℚ)].length ∧ [(1 : ℚ)].length = [(1 : ℚ)].length ∧
      0 < [(1 : ℚ)].length) ∧
    ((lifVupdate [1] [0] (lifCols [2, 0] [1] [0] [1] 1 0).V 1 ([(2 : ℚ), 0].getD 0 0)).getD 0 0 =
      (lifCols [2, 0] [1] [0] [1] 1 0).V.getD 0 0 +
        1 * (-((lifCols [2, 0] [1] [0] [1] 1 0).V.getD 0 0) +
          [(1 : ℚ)].getD 0 0 * [(2 : ℚ), 0].getD 0 0 + [(0 : ℚ)].getD 0 0) ∧
    (lifCols [2, 0] [1] [0] [1] 1 (0 + 1)).V.getD 0 0 =
      (if [(1 : ℚ)].getD 0 0 ≤
          (lifVupdate [1] [0] (lifCols [2, 0] [1] [0] [1] 1 0).V 1
            ([(2 : ℚ), 0].getD 0 0)).getD 0 0
        then 0
        else (lifVupdate [1] [0] (lifCols [2, 0] [1] [0] [1] 1 0).V 1
          ([(2 : ℚ), 0].getD 0 0)).getD 0 0)) :=
  ⟨⟨by decide, by decide, by decide⟩,
    claim4_voltage_recurrence_pre_reset [2, 0] [1] [0] [1] 1 (by decide) (by decide)
      0 0 (by decide)⟩

/-! ### Claim C5: output shapes and zero first column -/

theorem rowAux {α : Type} (f : ℕ → α) (nT : ℕ) :
    ((List.range nT).map f).length = nT ∧
      (0 < nT → ((List.range nT).map f).head? = some (f 0)) := by
  refine ⟨by simp, fun hnT => ?_⟩
  obtain ⟨n, rfl⟩ : ∃ n, nT = n + 1 := ⟨nT - 1, by omega⟩
  rw [List.range_succ_eq_map]
  simp

/-- Claim C5: for a well formed population of N >= 1 neurons and an input
sequence of length nT, the three outputs of run_LIF_network have N rows of
length nT each, and (when nT >= 1) the first time column of all three
outputs is zero. -/
theorem claim5_output_shapes (x F b T : List ℚ) (dt : ℚ)
    (hb : b.length = F.length) (hT : T.length = F.length) (hN : 1 ≤ F.length) :
    ((run_LIF_network x F b T dt).1.length = F.length ∧
      (run_LIF_network x F b T dt).2.1.length = F.length ∧
      (run_LIF_network x F b T dt).2.2.length = F.length) ∧
    (∀ row ∈ (run_LIF_network x F b T dt).1,
      row.length = x.length ∧ (0 < x.length → row.head? = some 0)) ∧
    (∀ row ∈ (run_LIF_network x F b T dt).2.1,
      row.length = x.length ∧ (0 < x.length → row.head? = some 0)) ∧
    (∀ row ∈ (run_LIF_network x F b T dt).2.2,
      row.length = x.length ∧ (0 < x.length → row.head? = some 0)) := by
  refine ⟨⟨by simp [run_LIF_network], by simp [run_LIF_network], by simp [run_LIF_network]⟩,
    ?_, ?_, ?_⟩ <;>
  · intro row hrow
    simp only [run_LIF_network, List.mem_map, List.mem_range] at hrow
    obtain ⟨j, hj, rfl⟩ := hrow
    refine ⟨(rowAux _ x.length).1, fun hx => ?_⟩
    rw [(rowAux _ x.length).2 hx]
    simp [lifCols, lifInit, getD_replicate (0 : ℚ) F.length j hj]

/-- Witness for claim C5 at a concrete input: one neuron, two timepoints. -/
theorem claim5_witness :
    ([(0 : ℚ)].length = [(1 : ℚ)].length ∧ [(1 : ℚ)].length = [(1 : ℚ)].length ∧
      1 ≤ [(1 : ℚ)].length) ∧
    (((run_LIF_network [2, 0] [1] [0] [1] 1).1.length = [(1 : ℚ)].length ∧
      (run_LIF_network [2, 0] [1] [0] [1] 1).2.1.length = [(1 : ℚ)].length ∧
      (run_LIF_network [2, 0] [1] [0] [1] 1).2.2.length = [(1 : ℚ)].length) ∧
    (∀ row ∈ (run_LIF_network [2, 0] [1] [0] [1] 1).1,
      row.length = [(2 : ℚ), 0].length ∧
        (0 < [(2 : ℚ), 0].length → row.head? = some 0)) ∧
    (∀ row ∈ (run_LIF_network [2, 0] [1] [0] [1] 1).2.1,
      row.length = [(2 : ℚ), 0].length ∧
        (0 < [(2 : ℚ), 0].length → row.head? = some 0)) ∧
    (∀ row ∈ (run_LIF_network [2, 0] [1] [0] [1] 1).2.2,
      row.length = [(2 : ℚ), 0].length ∧
        (0 < [(2 : ℚ), 0].length → row.head? = some 0))) :=
  ⟨⟨by decide, by decide, by decide⟩,
    claim5_output_shapes [2, 0] [1] [0] [1] 1 (by decide) (by decide) (by decide)⟩

/-! ### Claim C9: the last input value never influences the output -/

theorem lifCols_congr (x y F b T : List ℚ) (dt : ℚ) (i : ℕ)
    (hagree : ∀ k, k < i → x.getD k 0 = y.getD k 0) :
    lifCols x F b T dt i = lifCols y F b T dt i := by
  induction i with
  | zero => rfl
  | succ k ih =>
    simp only [lifCols]
    rw [ih (fun l hl => hagree l (by omega)), hagree k (by omega)]

/-- Claim C9: two input sequences of the same length that agree everywhere
except possibly at the last position produce identical outputs of
run_LIF_network: the final input value x[nT-1] is never read by the loop. -/
theorem claim9_last_input_never_read (x y F b T : List ℚ) (dt : ℚ)
    (hlen : x.length = y.length)
    (hagree : ∀ k, k < x.length - 1 → x.getD k 0 = y.getD k 0) :
    run_LIF_network x F b T dt = run_LIF_network y F b T dt := by
  have hcols : ∀ i, i < x.length → lifCols x F b T dt i = lifCols y F b T dt i :=
    fun i hi => lifCols_congr x y F b T dt i (fun k hk => hagree k (by omega))
  simp only [run_LIF_network, ← hlen]
  refine Prod.ext ?_ (Prod.ext ?_ ?_) <;>
  · refine List.map_congr_left (fun j hj => ?_)
    refine List.map_congr_left (fun i hi => ?_)
    rw [hcols i (List.mem_range.1 hi)]

/-- Witness for claim C9 at a concrete input: x = [1, 5] and y = [1, -5]
differ only at the last position and give identical outputs. -/
theorem claim9_witness :
    ([(1 : ℚ), 5].length = [(1 : ℚ), -5].length ∧
      (∀ k, k < [(1 : ℚ), 5].length - 1 →
        [(1 : ℚ), 5].getD k 0 = [(1 : ℚ), -5].getD k 0)) ∧
    run_LIF_network [1, 5] [1] [0] [1] 1 = run_LIF_network [1, -5] [1] [0] [1] 1 :=
  ⟨⟨by decide, by decide⟩,
    claim9_last_input_never_read [1, 5] [1, -5] [1] [0] [1] 1 (by decide) (by decide)⟩

/-! ### Claim C10: spikes are 0/1 and filtered rates are nonnegative -/

theorem lifCols_spike_rate_invariant (x F b T : List ℚ) (dt : ℚ)
    (hb : b.length = F.length) (hT : T.length = F.length)
    (hdt1 : dt ≤ 1) (i j : ℕ) (hj : j < F.length) :
    ((lifCols x F b T dt i).s.getD j 0 = 0 ∨ (lifCols x F b T dt i).s.getD j 0 = 1) ∧
      0 ≤ (lifCols x F b T dt i).r.getD j 0 := by
  induction i with
  | zero =>
    simp [lifCols, lifInit, getD_replicate (0 : ℚ) F.length j hj]
  | succ k ih =>
    obtain ⟨hs, hr⟩ := ih
    obtain ⟨⟨_, hseq⟩, hreq⟩ := lifCols_succ_getD x F b T dt hb hT k j hj
    constructor
    · rw [hseq]
      by_cases h : T.getD j 0 ≤ (lifVupdate F b (lifCols x F b T dt k).V dt (x.getD k 0)).getD j 0
      · exact Or.inr (if_pos h)
      · exact Or.inl (if_neg h)
    · rw [hreq]
      have hmul : 0 ≤ (lifCols x F b T dt k).r.getD j 0 * (1 - dt) :=
        mul_nonneg hr (by linarith)
      have hsprev : 0 ≤ (lifCols x F b T dt k).s.getD j 0 := by
        rcases hs with h | h <;> rw [h] <;> norm_num
      nlinarith

/-- Claim C10: with 0 < dt <= 1 and a well formed population, every entry of
the spike output of run_LIF_network is 0 or 1, and every entry of the
filtered-rate output is nonnegative. -/
theorem claim10_spike_binary_rate_nonneg (x F b T : List ℚ) (dt : ℚ)
    (hb : b.length = F.length) (hT : T.length = F.length)
    (hdt0 : 0 < dt) (hdt1 : dt ≤ 1) :
    (∀ row ∈ (run_LIF_network x F b T dt).2.1, ∀ a ∈ row, a = 0 ∨ a = 1) ∧
    (∀ row ∈ (run_LIF_network x F b T dt).2.2, ∀ a ∈ row, 0 ≤ a) := by
  constructor <;>
  · intro row hrow a ha
    simp only [run_LIF_network, List.mem_map, List.mem_range] at hrow
    obtain ⟨j, hj, rfl⟩ := hrow
    simp only [List.mem_map, List.mem_range] at ha
    obtain ⟨i, hi, rfl⟩ := ha
    first
    | exact (lifCols_spike_rate_invariant x F b T dt hb hT hdt1 i j hj).1
    | exact (lifCols_spike_rate_invariant x F b T dt hb hT hdt1 i j hj).2

/-- Witness for claim C10 at a concrete input. -/
theorem claim10_witness :
    ([(0 : ℚ)].length = [(1 : ℚ)].length ∧ [(1 : ℚ)].length = [(1 : ℚ)].length ∧
      (0 : ℚ) < 1 ∧ (1 : ℚ) ≤ 1) ∧
    ((∀ row ∈ (run_LIF_network [2, 0] [1] [0] [1] 1).2.1, ∀ a ∈ row, a = 0 ∨ a = 1) ∧
     (∀ row ∈ (run_LIF_network [2, 0] [1] [0] [1] 1).2.2, ∀ a ∈ row, 0 ≤ a)) :=
  ⟨⟨by decide, by decide, by norm_num, by norm_num⟩,
    claim10_spike_binary_rate_nonneg [2, 0] [1] [0] [1] 1 (by decide) (by decide)
      (by norm_num) (by norm_num)⟩

/-! ## The analytical LIF rate function, embedded from LIF_io

Numpy float semantics matter here: np.log of a negative argument is nan, of
zero is -inf; a nonzero float divided by zero is a signed infinity and 0/0 is
nan; 1/inf is exactly 0; comparisons against nan are false.  A numpy value is
therefore modelled as a finite real, a signed infinity, or nan. -/

/-- A numpy float64 value: finite, +inf, -inf or nan. -/
inductive NpVal where
  | fin (v : ℝ)
  | pinf
  | ninf
  | nan

/-- Numpy division of finite floats, with the special values of a zero
denominator: a/0 is +inf for a > 0, -inf for a < 0, and nan for 0/0. -/
noncomputable def npDiv (a d : ℝ) : NpVal :=
  if d = 0 then (if 0 < a then NpVal.pinf else if a < 0 then NpVal.ninf else NpVal.nan)
  else NpVal.fin (a / d)

/-- np.log on a numpy value: the real logarithm on positive finite values,
-inf at zero, nan on negative values, inf at +inf, nan at -inf and nan. -/
noncomputable def npLog : NpVal → NpVal
  | NpVal.fin v => if 0 < v then NpVal.fin (Real.log v) else if v = 0 then NpVal.ninf else NpVal.nan
  | NpVal.pinf => NpVal.pinf
  | NpVal.ninf => NpVal.nan
  | NpVal.nan => NpVal.nan

/-- The reciprocal 1/out on a numpy value: 1/0 is +inf (the out value 0 only
arises as log(1) = +0.0) and 1/(+-inf) is exactly 0. -/
noncomputable def npInv : NpVal → NpVal
  | NpVal.fin v => if v = 0 then NpVal.pinf else NpVal.fin v⁻¹
  | NpVal.pinf => NpVal.fin 0
  | NpVal.ninf => NpVal.fin 0
  | NpVal.nan => NpVal.nan

/-- The elementwise comparison out <= 0 on a numpy value; any comparison
against nan is false. -/
noncomputable def npLe0 : NpVal → Bool
  | NpVal.fin v => decide (v ≤ 0)
  | NpVal.pinf => false
  | NpVal.ninf => true
  | NpVal.nan => false

/-- np.isnan on a numpy value. -/
def npIsNan : NpVal → Bool
  | NpVal.nan => true
  | _ => false

/-- One element of LIF_io: out = log((f*x+b)/(f*x+b-T)); rate = 1/out;
rate[out <= 0] = 0; rate[isnan(rate)] = 0. -/
noncomputable def LIF_io_elem (f b T xv : ℝ) : NpVal :=
  if npLe0 (npLog (npDiv (f * xv + b) (f * xv + b - T))) then NpVal.fin 0
  else if npIsNan (npInv (npLog (npDiv (f * xv + b) (f * xv + b - T)))) then NpVal.fin 0
  else npInv (npLog (npDiv (f * xv + b) (f * xv + b - T)))

/-- The rate function LIF_io on an array input, elementwise over the array
exactly as the vectorized numpy source: out = np.log((f*x+b)/(f*x+b-T)),
rate = 1/out, then the two masking assignments rate[out<=0] = 0 and
rate[np.isnan(rate)] = 0. -/
noncomputable def LIF_io (x : List ℝ) (f b T : ℝ) : List NpVal :=
  (List.zipWith
    (fun o rt => if npLe0 o then NpVal.fin 0 else rt)
    (x.map (fun xv => npLog (npDiv (f * xv + b) (f * xv + b - T))))
    ((x.map (fun xv => npLog (npDiv (f * xv + b) (f * xv + b - T)))).map npInv)).map
    (fun rt => if npIsNan rt then NpVal.fin 0 else rt)

/-- Entry i of LIF_io is the elementwise pipeline applied to entry i of the
input array. -/
theorem LIF_io_getD (x : List ℝ) (f b T : ℝ) (i : ℕ) (hi : i < x.length) :
    (LIF_io x f b T).getD i NpVal.nan = LIF_io_elem f b T (x.getD i 0) := by
  unfold LIF_io LIF_io_elem
  rw [getD_map _ _ i (by simp [List.length_zipWith]; omega) NpVal.nan NpVal.nan]
  rw [getD_zipWith _ _ _ i (by simpa using hi) (by simpa using hi) NpVal.nan NpVal.nan NpVal.nan]
  rw [getD_map npInv _ i (by simpa using hi) NpVal.nan NpVal.nan]
  rw [getD_map _ x i hi 0 NpVal.nan]
  set out := npLog (npDiv (f * x.getD i 0 + b) (f * x.getD i 0 + b - T)) with hout
  by_cases h : npLe0 out = true <;> simp [h, npIsNan]

/-! ### Claim C1: sub-threshold inputs give exactly zero rate -/

/-- Counterexample to claim C1 as stated for arbitrary parameters: with
f = 1, b = 0 and the negative threshold T = -1, the input x = -2 is
sub-threshold (f*x + b = -2 <= -1 = T), yet the log argument is
(-2)/(-1) = 2 > 1, so neither mask fires and LIF_io returns the positive
value 1/log 2 instead of 0. -/
theorem claim1_counterexample :
    (1 * (-2 : ℝ) + 0 ≤ -1) ∧
      (LIF_io [-2] 1 0 (-1)).getD 0 NpVal.nan ≠ NpVal.fin 0 := by
  refine ⟨by norm_num, ?_⟩
  rw [LIF_io_getD [-2] 1 0 (-1) 0 (by norm_num)]
  unfold LIF_io_elem
  have ha : (1 : ℝ) * [(-2 : ℝ)].getD 0 0 + 0 = -2 := by norm_num
  rw [ha]
  have h1 : npDiv (-2) ((-2 : ℝ) - (-1)) = NpVal.fin 2 := by
    unfold npDiv
    rw [if_neg (by norm_num)]
    norm_num
  rw [h1]
  have h2 : npLog (NpVal.fin 2) = NpVal.fin (Real.log 2) := by
    simp only [npLog]
    rw [if_pos (by norm_num : (0 : ℝ) < 2)]
  rw [h2]
  have hlog : 0 < Real.log 2 := Real.log_pos one_lt_two
  have h3 : npLe0 (NpVal.fin (Real.log 2)) = false := by
    simp only [npLe0]
    exact decide_eq_false (not_le.2 hlog)
  rw [h3]
  have h4 : npInv (NpVal.fin (Real.log 2)) = NpVal.fin (Real.log 2)⁻¹ := by
    simp only [npInv]
    rw [if_neg (ne_of_gt hlog)]
  simp only [Bool.false_eq_true, if_false, h4, npIsNan]
  intro hcontra
  have : (Real.log 2)⁻¹ = 0 := by injection hcontra
  exact inv_ne_zero hlog.ne.symm this

/-- Claim C1, amended with a nonnegative threshold: for 0 ≤ T, LIF_io
returns exactly fin 0 (a genuine zero, not nan, with no error) at every
array position whose drive is sub-threshold, f*x + b ≤ T.  All the internal
edge cases (negative log argument giving nan, zero log argument giving
-inf, log values that are nonpositive, and the infinite log at f*x+b = T
whose reciprocal is exactly 0) land on 0. -/
theorem claim1_subthreshold_zero (x : List ℝ) (f b T : ℝ) (hT : 0 ≤ T)
    (i : ℕ) (hi : i < x.length) (hsub : f * x.getD i 0 + b ≤ T) :
    (LIF_io x f b T).getD i NpVal.nan = NpVal.fin 0 := by
  rw [LIF_io_getD x f b T i hi]
  unfold LIF_io_elem
  set a := f * x.getD i 0 + b with ha
  by_cases hd : a - T = 0
  · by_cases hT0 : 0 < T
    · have h1 : npDiv a (a - T) = NpVal.pinf := by
        unfold npDiv
        rw [if_pos hd, if_pos (by linarith)]
      rw [h1]
      simp [npLog, npInv, npLe0, npIsNan]
    · have hT0eq : T = 0 := le_antisymm (not_lt.1 hT0) hT
      have h1 : npDiv a (a - T) = NpVal.nan := by
        unfold npDiv
        rw [if_pos hd, if_neg (by linarith), if_neg (by linarith)]
      rw [h1]
      simp [npLog, npInv, npLe0, npIsNan]
  · have hdlt : a - T < 0 := lt_of_le_of_ne (by linarith) hd
    have h1 : npDiv a (a - T) = NpVal.fin (a / (a - T)) := by
      unfold npDiv
      rw [if_neg hd]
    rw [h1]
    rcases lt_trichotomy a 0 with haneg | haz | hapos
    · have hrpos : 0 < a / (a - T) := div_pos_of_neg_of_neg haneg hdlt
      have hrle : a / (a - T) ≤ 1 := by
        by_contra hgt
        push_neg at hgt
        nlinarith [div_mul_cancel₀ a hd]
      have h2 : npLog (NpVal.fin (a / (a - T))) = NpVal.fin (Real.log (a / (a - T))) := by
        simp only [npLog]
        rw [if_pos hrpos]
      rw [h2]
      have h3 : npLe0 (NpVal.fin (Real.log (a / (a - T)))) = true := by
        simp only [npLe0]
        exact decide_eq_true (Real.log_nonpos hrpos.le hrle)
      rw [if_pos h3]
    · have h2 : npLog (NpVal.fin (a / (a - T))) = NpVal.ninf := by
        rw [haz, zero_div]
        simp [npLog]
      rw [h2]
      simp [npLe0]
    · have hrneg : a / (a - T) < 0 := div_neg_of_pos_of_neg hapos hdlt
      have h2 : npLog (NpVal.fin (a / (a - T))) = NpVal.nan := by
        simp only [npLog]
        rw [if_neg (by linarith), if_neg hrneg.ne]
      rw [h2]
      simp [npLe0, npInv, npIsNan]

/-- Witness for the amended claim C1: with f = 1, b = 0, T = 1 and the
sub-threshold input x = 0, LIF_io returns exactly fin 0. -/
theorem claim1_witness :
    ((0 : ℝ) ≤ 1 ∧ 0 < [(0 : ℝ)].length ∧ 1 * [(0 : ℝ)].getD 0 0 + 0 ≤ 1) ∧
      (LIF_io [0] 1 0 1).getD 0 NpVal.nan = NpVal.fin 0 :=
  ⟨⟨by norm_num, by norm_num, by simp⟩,
    claim1_subthreshold_zero [0] 1 0 1 (by norm_num) 0 (by norm_num) (by simp)⟩

/-! ### Claim C8: scalar inputs to LIF_io -/

/-- A python-level argument to LIF_io: a scalar number or a 1-d array. -/
inductive PyNp where
  | scalar (v : ℝ)
  | array (vs : List ℝ)

/-- A python-level result of LIF_io: a 0-d (scalar) or 1-d numpy value. -/
inductive PyOut where
  | scalar (v : NpVal)
  | array (vs : List NpVal)

/-- The TypeError numpy raises when the boolean-mask item assignment
rate[out <= 0] = 0 is attempted on a 0-d (scalar) rate value. -/
def scalarMaskError : String :=
  "TypeError: scalar rate does not support item assignment"

/-- LIF_io at the python level.  The ufunc part of the body (the division,
np.log and 1/out) accepts scalars as well as arrays, but the masking
statement rate[out <= 0] = 0 is an item assignment, which a 0-d numpy scalar
does not support: for a scalar argument the call raises TypeError at that
line and the computed scalar out/rate values are discarded.  For an array
argument the whole pipeline goes through and never raises. -/
noncomputable def LIF_io_py (x : PyNp) (f b T : ℝ) : Except String PyOut :=
  match x with
  | PyNp.array vs => Except.ok (PyOut.array (LIF_io vs f b T))
  | PyNp.scalar _ => Except.error scalarMaskError

@[simp] theorem LIF_io_length (x : List ℝ) (f b T : ℝ) :
    (LIF_io x f b T).length = x.length := by
  simp [LIF_io, List.length_zipWith]

/-- Counterexample to claim C8 as stated: at the notebook parameters
f = 2/5, b = 0, T = 1 with the scalar input x = 5, LIF_io raises a
TypeError (the masking assignment is unsupported on a 0-d value); its error
branch is reached, not unreachable, and no rate is returned. -/
theorem claim8_counterexample :
    LIF_io_py (PyNp.scalar 5) (2/5) 0 1 = Except.error scalarMaskError ∧
      ¬ ∃ out, LIF_io_py (PyNp.scalar 5) (2/5) 0 1 = Except.ok out := by
  refine ⟨rfl, ?_⟩
  rintro ⟨out, hout⟩
  simp [LIF_io_py] at hout

/-- Claim C8, amended: LIF_io never returns on a scalar input — every scalar
call raises the TypeError of the masking assignment — while every array
input produces, without any error, one rate value per input element,
elementwise by the rate pipeline (with the sub-threshold masking applied). -/
theorem claim8_scalar_raises_array_returns (f b T : ℝ) :
    (∀ v : ℝ, LIF_io_py (PyNp.scalar v) f b T = Except.error scalarMaskError) ∧
    (∀ vs : List ℝ,
      LIF_io_py (PyNp.array vs) f b T = Except.ok (PyOut.array (LIF_io vs f b T)) ∧
      (LIF_io vs f b T).length = vs.length ∧
      ∀ i, i < vs.length →
        (LIF_io vs f b T).getD i NpVal.nan = LIF_io_elem f b T (vs.getD i 0)) :=
  ⟨fun _ => rfl,
    fun vs => ⟨rfl, LIF_io_length vs f b T, fun i hi => LIF_io_getD vs f b T i hi⟩⟩

/-- Witness for the amended claim C8 at concrete inputs. -/
theorem claim8_witness :
    LIF_io_py (PyNp.scalar 3) 1 0 1 = Except.error scalarMaskError ∧
    (LIF_io_py (PyNp.array [3]) 1 0 1 = Except.ok (PyOut.array (LIF_io [3] 1 0 1)) ∧
      (LIF_io [3] 1 0 1).length = [(3 : ℝ)].length ∧
      ∀ i, i < [(3 : ℝ)].length →
        (LIF_io [3] 1 0 1).getD i NpVal.nan = LIF_io_elem 1 0 1 ([(3 : ℝ)].getD i 0)) :=
  ⟨(claim8_scalar_raises_array_returns 1 0 1).1 3,
    (claim8_scalar_raises_array_returns 1 0 1).2 [3]⟩

/-! ### Claim C7: two-dimensional input signals

run_LIF_network recovers nT as len(x).  For a 2-d input of shape (K, nT),
len(x) is K, the number of signal dimensions, so the state arrays are
allocated with K columns and the loop runs over range(1, K).  The model
below embeds the source for a 2-d x (and 2-d F): each numpy expression of
the loop body is rendered with explicit broadcasting, and an operation that
numpy rejects (in particular assigning a 2-d right-hand side into the 1-d
column V[:, i]) yields none, the model of a raised exception. -/

/-- Elementwise binary numpy operation on two 1-d arrays with length-1
broadcasting; none models the shape-mismatch error. -/
def bop1 (f : ℚ → ℚ → ℚ) (u v : List ℚ) : Option (List ℚ) :=
  if u.length = v.length then some (List.zipWith f u v)
  else if v.length = 1 then some (u.map (fun a => f a (v.getD 0 0)))
  else if u.length = 1 then some (v.map (fun c => f (u.getD 0 0) c))
  else none

/-- Elementwise numpy operation of a 2-d array with a 1-d array, the 1-d
operand broadcast along the first axis. -/
def bop2d1d (f : ℚ → ℚ → ℚ) (m : List (List ℚ)) (v : List ℚ) :
    Option (List (List ℚ)) :=
  m.mapM (fun row => bop1 f row v)

/-- Elementwise numpy operation of a 1-d array with a 2-d array. -/
def bop1d2d (f : ℚ → ℚ → ℚ) (v : List ℚ) (m : List (List ℚ)) :
    Option (List (List ℚ)) :=
  m.mapM (fun row => bop1 f v row)

/-- Column i of a row-major matrix: M[:, i]. -/
def getCol (m : List (List ℚ)) (i : ℕ) : List ℚ := m.map (fun row => row.getD i 0)

/-- A 1-d or 2-d numpy value, as it can appear on the right of a column
assignment. -/
inductive Np1or2 where
  | d1 (v : List ℚ)
  | d2 (m : List (List ℚ))

/-- The assignment M[:, i] = src.  A 1-d source must match the column length
(or have length 1); numpy raises on a 2-d source, which has more dimensions
than the 1-d target column, so that case is none. -/
def setCol (m : List (List ℚ)) (i : ℕ) (src : Np1or2) : Option (List (List ℚ)) :=
  match src with
  | Np1or2.d1 v =>
      if v.length = m.length then some (List.zipWith (fun row a => row.set i a) m v)
      else if v.length = 1 then some (m.map (fun row => row.set i (v.getD 0 0)))
      else none
  | Np1or2.d2 _ => none

/-- The right-hand side V[:, i-1] + dt*(-V[:, i-1] + F*x[i-1] + b) of the
voltage update when x is 2-d: x[i-1] is then a row of length nT and F is a
2-d array, so the products and sums broadcast to 2-d values. -/
def vRhs2d (F : List (List ℚ)) (b : List ℚ) (dt : ℚ) (Vprev xprev : List ℚ) :
    Option (List (List ℚ)) := do
  let fx ← bop2d1d (fun p q => p * q) F xprev
  let t1 ← bop1d2d (fun p q => p + q) (Vprev.map (fun a => -a)) fx
  let t2 ← bop2d1d (fun p q => p + q) t1 b
  let t3 := t2.map (fun row => row.map (fun a => dt * a))
  bop1d2d (fun p q => p + q) Vprev t3

/-- Masked scatter into column i: for every row whose mask entry holds,
entry i of that row is set to c. -/
def maskSetCol (m : List (List ℚ)) (i : ℕ) (mask : List Bool) (c : ℚ) :
    List (List ℚ) :=
  List.zipWith (fun row q => if q then row.set i c else row) m mask

/-- One iteration of the Euler loop of run_LIF_network for a 2-d x: the
voltage assignment comes first and already fails (its right-hand side is
2-d), so the remaining statements of the body are never reached. -/
def lifStep2d (x F : List (List ℚ)) (b T : List ℚ) (dt : ℚ) (i : ℕ)
    (st : List (List ℚ) × List (List ℚ) × List (List ℚ)) :
    Option (List (List ℚ) × List (List ℚ) × List (List ℚ)) := do
  let rhs ← vRhs2d F b dt (getCol st.1 (i - 1)) (x.getD (i - 1) [])
  let V1 ← setCol st.1 i (Np1or2.d2 rhs)
  let t ← bop1 (fun p q => p + q) (getCol st.2.2 (i - 1))
    ((getCol st.2.2 (i - 1)).map (fun a => dt * (-a)))
  let rcol ← bop1 (fun p q => p + q) t (getCol st.2.1 (i - 1))
  let R1 ← setCol st.2.2 i (Np1or2.d1 rcol)
  let mask := List.zipWith (fun a c => decide (c ≤ a)) (getCol V1 i) T
  return (maskSetCol V1 i mask 0, maskSetCol st.2.1 i mask 1, R1)

/-- run_LIF_network on a 2-d input x of shape (K, nT) (with 2-d weights F):
nT is read off as len(x) = K and N as len(F), the three state arrays are
allocated as len(F) x len(x) zero matrices, and the loop runs over
range(1, len(x)). -/
def run_LIF_network_2d (x F : List (List ℚ)) (b T : List ℚ) (dt : ℚ) :
    Option (List (List ℚ) × List (List ℚ) × List (List ℚ)) :=
  let zeros := List.replicate F.length (List.replicate x.length (0 : ℚ))
  (List.range' 1 (x.length - 1)).foldlM
    (fun st i => lifStep2d x F b T dt i st) (zeros, zeros, zeros)

/-- Every executed iteration of the 2-d loop fails: the first statement of
the body assigns the 2-d voltage right-hand side into a 1-d column. -/
theorem lifStep2d_none (x F : List (List ℚ)) (b T : List ℚ) (dt : ℚ) (i : ℕ)
    (st : List (List ℚ) × List (List ℚ) × List (List ℚ)) :
    lifStep2d x F b T dt i st = none := by
  unfold lifStep2d
  cases h : vRhs2d F b dt (getCol st.1 (i - 1)) (x.getD (i - 1) []) <;>
    simp [h, setCol]

/-- Counterexample to claim C7 as stated: for the 2-d input x = [[1, 2, 3]]
of shape K x nT = 1 x 3 with weights F = [[1, 1]] of shape K x N = 1 x 2
(and b, T of length N = 2), run_LIF_network does not produce three
N x nT = 2 x 3 arrays: len(x) is K = 1, the loop body never runs, and the
call returns three 1 x 1 zero matrices. -/
theorem claim7_counterexample :
    run_LIF_network_2d [[1, 2, 3]] [[1, 1]] [0, 0] [0, 0] 1 =
      some ([[0]], [[0]], [[0]]) ∧
    ¬ ∃ V s r, run_LIF_network_2d [[1, 2, 3]] [[1, 1]] [0, 0] [0, 0] 1 =
        some (V, s, r) ∧ V.length = 2 ∧ ∀ row ∈ V, row.length = 3 := by
  have h : run_LIF_network_2d [[1, 2, 3]] [[1, 1]] [0, 0] [0, 0] 1 =
      some ([[0]], [[0]], [[0]]) := by decide
  refine ⟨h, ?_⟩
  rintro ⟨V, s, r, heq, hlen, _⟩
  rw [h] at heq
  obtain ⟨rfl, rfl, rfl⟩ : V = [[0]] ∧ s = [[0]] ∧ r = [[0]] := by
    simpa using heq.symm
  simp at hlen

/-- Claim C7, amended: run_LIF_network does not support 2-d input.  Because
nT is recovered as len(x) = K, a 2-d input with a single signal dimension
(K = 1) returns three len(F) x 1 zero matrices regardless of nT, and any
2-d input with K >= 2 raises an error inside the first loop iteration (the
2-d voltage right-hand side cannot be assigned into the 1-d column
V[:, 1]). -/
theorem claim7_no_2d_support (x F : List (List ℚ)) (b T : List ℚ) (dt : ℚ) :
    (x.length = 1 →
      run_LIF_network_2d x F b T dt =
        some (List.replicate F.length [0], List.replicate F.length [0],
          List.replicate F.length [0])) ∧
    (2 ≤ x.length → run_LIF_network_2d x F b T dt = none) := by
  constructor
  · intro h1
    unfold run_LIF_network_2d
    rw [h1]
    rfl
  · intro h2
    unfold run_LIF_network_2d
    obtain ⟨k, hk⟩ : ∃ k, x.length - 1 = k + 1 := ⟨x.length - 2, by omega⟩
    rw [hk, List.range'_succ]
    simp [lifStep2d_none]

/-- Witness for the amended claim C7: a 1 x 2 input gives 1 x 1 zero
outputs, and a 2 x 1 input raises. -/
theorem claim7_witness :
    ([[(1 : ℚ), 2]].length = 1 ∧
      run_LIF_network_2d [[1, 2]] [[1]] [0] [0] 1 =
        some (List.replicate 1 [0], List.replicate 1 [0], List.replicate 1 [0])) ∧
    (2 ≤ [[(1 : ℚ)], [2]].length ∧
      run_LIF_network_2d [[1], [2]] [[1]] [0] [0] 1 = none) :=
  ⟨⟨by decide, (claim7_no_2d_support [[1, 2]] [[1]] [0] [0] 1).1 (by decide)⟩,
    ⟨by decide, (claim7_no_2d_support [[1], [2]] [[1]] [0] [0] 1).2 (by decide)⟩⟩

/-! ## The NEF decoder, embedded from the notebook closed form

D = Y * R^t * (R * R^t + lam * I)^(-1), fit against the ridge loss
L = norm(Y - D*R)^2 + lam * norm(D)^2 (squared Frobenius norms). -/

open Matrix in
/-- The regularized Gram matrix R*R^t + lam*I of the decoder formula. -/
def gram {N m : ℕ} (R : Matrix (Fin N) (Fin m) ℝ) (lam : ℝ) :
    Matrix (Fin N) (Fin N) ℝ :=
  R * Rᵀ + lam • 1

open Matrix in
/-- The decoder D = Y * R^t * (R*R^t + lam*I)^(-1) of the notebook. -/
noncomputable def decoder {N m p : ℕ} (Y : Matrix (Fin p) (Fin m) ℝ)
    (R : Matrix (Fin N) (Fin m) ℝ) (lam : ℝ) : Matrix (Fin p) (Fin N) ℝ :=
  Y * Rᵀ * (gram R lam)⁻¹

/-- Squared Frobenius norm of a matrix. -/
def frobSq {a c : ℕ} (A : Matrix (Fin a) (Fin c) ℝ) : ℝ := ∑ i, ∑ j, (A i j) ^ 2

/-- The ridge loss L(D) = norm(Y - D*R)^2 + lam * norm(D)^2. -/
def ridgeLoss {N m p : ℕ} (Y : Matrix (Fin p) (Fin m) ℝ)
    (R : Matrix (Fin N) (Fin m) ℝ) (lam : ℝ) (D : Matrix (Fin p) (Fin N) ℝ) : ℝ :=
  frobSq (Y - D * R) + lam * frobSq D

open Matrix in
theorem frobSq_eq_trace {a c : ℕ} (A : Matrix (Fin a) (Fin c) ℝ) :
    frobSq A = Matrix.trace (A * Aᵀ) := by
  simp [frobSq, Matrix.trace, Matrix.diag, Matrix.mul_apply, Matrix.transpose_apply, sq]

open Matrix in
theorem gram_posDef {N m : ℕ} (R : Matrix (Fin N) (Fin m) ℝ) (lam : ℝ)
    (hlam : 0 < lam) : (gram R lam).PosDef := by
  have h1 : (R * Rᵀ).PosSemidef := by
    have h := Matrix.posSemidef_self_mul_conjTranspose R
    rwa [Matrix.conjTranspose_eq_transpose_of_trivial] at h
  have h2 : (lam • (1 : Matrix (Fin N) (Fin N) ℝ)).PosDef := by
    rw [Matrix.smul_one_eq_diagonal]
    exact Matrix.PosDef.diagonal (fun i => hlam)
  exact Matrix.PosDef.posSemidef_add h1 h2

open Matrix in
theorem gram_transpose {N m : ℕ} (R : Matrix (Fin N) (Fin m) ℝ) (lam : ℝ) :
    (gram R lam)ᵀ = gram R lam := by
  unfold gram
  rw [Matrix.transpose_add, Matrix.transpose_mul, Matrix.transpose_transpose,
    Matrix.transpose_smul, Matrix.transpose_one]

open Matrix in
theorem decoder_mul_gram {N m p : ℕ} (Y : Matrix (Fin p) (Fin m) ℝ)
    (R : Matrix (Fin N) (Fin m) ℝ) (lam : ℝ) (hlam : 0 < lam) :
    decoder Y R lam * gram R lam = Y * Rᵀ := by
  unfold decoder
  rw [Matrix.mul_assoc, Matrix.nonsing_inv_mul _ (gram_posDef R lam hlam).det_pos.ne'.isUnit,
    Matrix.mul_one]

open Matrix in
theorem gram_mul_decoder_transpose {N m p : ℕ} (Y : Matrix (Fin p) (Fin m) ℝ)
    (R : Matrix (Fin N) (Fin m) ℝ) (lam : ℝ) (hlam : 0 < lam) :
    R * Yᵀ = gram R lam * (decoder Y R lam)ᵀ := by
  calc R * Yᵀ = (Y * Rᵀ)ᵀ := by rw [Matrix.transpose_mul, Matrix.transpose_transpose]
  _ = (decoder Y R lam * gram R lam)ᵀ := by rw [decoder_mul_gram Y R lam hlam]
  _ = (gram R lam)ᵀ * (decoder Y R lam)ᵀ := by rw [Matrix.transpose_mul]
  _ = gram R lam * (decoder Y R lam)ᵀ := by rw [gram_transpose]

open Matrix in
theorem ridgeLoss_trace_form {N m p : ℕ} (Y : Matrix (Fin p) (Fin m) ℝ)
    (R : Matrix (Fin N) (Fin m) ℝ) (lam : ℝ) (hlam : 0 < lam)
    (D : Matrix (Fin p) (Fin N) ℝ) :
    ridgeLoss Y R lam D =
      Matrix.trace (Y * Yᵀ)
        - 2 * Matrix.trace (D * (gram R lam * (decoder Y R lam)ᵀ))
        + Matrix.trace (D * gram R lam * Dᵀ) := by
  have hRY := gram_mul_decoder_transpose Y R lam hlam
  unfold ridgeLoss
  rw [frobSq_eq_trace, frobSq_eq_trace]
  rw [Matrix.transpose_sub, Matrix.mul_sub, Matrix.sub_mul, Matrix.sub_mul]
  rw [Matrix.trace_sub, Matrix.trace_sub, Matrix.trace_sub]
  have e2 : Matrix.trace (Y * (D * R)ᵀ)
      = Matrix.trace (D * (gram R lam * (decoder Y R lam)ᵀ)) := by
    rw [← Matrix.trace_transpose (Y * (D * R)ᵀ), Matrix.transpose_mul,
      Matrix.transpose_transpose, Matrix.mul_assoc, hRY]
  have e3 : Matrix.trace (D * R * Yᵀ)
      = Matrix.trace (D * (gram R lam * (decoder Y R lam)ᵀ)) := by
    rw [Matrix.mul_assoc, hRY]
  have e4 : Matrix.trace (D * R * (D * R)ᵀ) + lam * Matrix.trace (D * Dᵀ)
      = Matrix.trace (D * gram R lam * Dᵀ) := by
    unfold gram
    rw [Matrix.mul_add, Matrix.add_mul, Matrix.trace_add]
    congr 1
    · rw [Matrix.transpose_mul]
      simp only [Matrix.mul_assoc]
    · rw [Matrix.mul_smul, Matrix.mul_one, Matrix.smul_mul, Matrix.trace_smul]
      simp [smul_eq_mul]
  rw [e2, e3]
  linarith [e4]

open Matrix in
theorem trace_quadratic_expand {N p : ℕ} (G : Matrix (Fin N) (Fin N) ℝ)
    (hGsym : Gᵀ = G) (D Ds : Matrix (Fin p) (Fin N) ℝ) :
    Matrix.trace ((D - Ds) * G * (D - Ds)ᵀ)
      = Matrix.trace (D * G * Dᵀ) - 2 * Matrix.trace (D * (G * Dsᵀ))
        + Matrix.trace (Ds * G * Dsᵀ) := by
  have hsw : Matrix.trace (Ds * G * Dᵀ) = Matrix.trace (D * (G * Dsᵀ)) := by
    rw [← Matrix.trace_transpose (Ds * G * Dᵀ), Matrix.transpose_mul,
      Matrix.transpose_transpose, Matrix.transpose_mul, hGsym]
  rw [Matrix.transpose_sub, Matrix.sub_mul, Matrix.sub_mul, Matrix.mul_sub, Matrix.mul_sub]
  rw [Matrix.trace_sub, Matrix.trace_sub, Matrix.trace_sub]
  have hDGDs : Matrix.trace (D * G * Dsᵀ) = Matrix.trace (D * (G * Dsᵀ)) := by
    rw [Matrix.mul_assoc]
  linarith [hsw, hDGDs]

theorem trace_nonneg_of_posSemidef {n : ℕ} {M : Matrix (Fin n) (Fin n) ℝ}
    (hM : M.PosSemidef) : 0 ≤ Matrix.trace M := by
  have hdiag : ∀ i, 0 ≤ M i i := fun i => by simpa using hM.2 (Pi.single i 1)
  exact Finset.sum_nonneg fun i _ => hdiag i

open Matrix in
/-- Claim C6: for every sample matrix R, target matrix Y and regularization
scalar lam > 0, the matrix R*R^t + lam*I is invertible (its determinant is a
unit, with no rank condition on R), and the decoder D = Y*R^t*(R*R^t+lam*I)^(-1)
minimizes the ridge loss norm(Y - D*R)^2 + lam*norm(D)^2 over all
output-dim x N matrices D. -/
theorem claim6_decoder_minimizes_ridge_loss {N m p : ℕ}
    (R : Matrix (Fin N) (Fin m) ℝ) (Y : Matrix (Fin p) (Fin m) ℝ)
    (lam : ℝ) (hlam : 0 < lam) :
    IsUnit (gram R lam).det ∧
      ∀ D : Matrix (Fin p) (Fin N) ℝ,
        ridgeLoss Y R lam (decoder Y R lam) ≤ ridgeLoss Y R lam D := by
  have hPD := gram_posDef R lam hlam
  refine ⟨hPD.det_pos.ne'.isUnit, fun D => ?_⟩
  have h1 := ridgeLoss_trace_form Y R lam hlam D
  have h2 := ridgeLoss_trace_form Y R lam hlam (decoder Y R lam)
  have h4 := trace_quadratic_expand (gram R lam) (gram_transpose R lam) D (decoder Y R lam)
  have h3 : 0 ≤ Matrix.trace ((D - decoder Y R lam) * gram R lam * (D - decoder Y R lam)ᵀ) := by
    refine trace_nonneg_of_posSemidef ?_
    have h := Matrix.PosSemidef.mul_mul_conjTranspose_same hPD.posSemidef (D - decoder Y R lam)
    rwa [Matrix.conjTranspose_eq_transpose_of_trivial] at h
  have h5 : Matrix.trace (decoder Y R lam * (gram R lam * (decoder Y R lam)ᵀ))
      = Matrix.trace (decoder Y R lam * gram R lam * (decoder Y R lam)ᵀ) := by
    rw [Matrix.mul_assoc]
  linarith

/-- Witness for claim C6 at a concrete instance: N = m = p = 1, R = Y = 1,
lam = 1. -/
theorem claim6_witness :
    (0 : ℝ) < 1 ∧
      (IsUnit (gram (1 : Matrix (Fin 1) (Fin 1) ℝ) 1).det ∧
        ∀ D : Matrix (Fin 1) (Fin 1) ℝ,
          ridgeLoss (1 : Matrix (Fin 1) (Fin 1) ℝ) (1 : Matrix (Fin 1) (Fin 1) ℝ) 1
              (decoder (1 : Matrix (Fin 1) (Fin 1) ℝ) (1 : Matrix (Fin 1) (Fin 1) ℝ) 1) ≤
            ridgeLoss (1 : Matrix (Fin 1) (Fin 1) ℝ) (1 : Matrix (Fin 1) (Fin 1) ℝ) 1 D) :=
  ⟨by norm_num,
    claim6_decoder_minimizes_ridge_loss (1 : Matrix (Fin 1) (Fin 1) ℝ)
      (1 : Matrix (Fin 1) (Fin 1) ℝ) 1 (by norm_num)⟩

end NMCA3
